import Mathlib

/-!
Shallow embedding of `src/darkseid/filenameparser.py` (class `FileNameParser`).

Python strings are modelled as `List Char` and indexed by code point, exactly
as Python's `str` indexing does.  Each regular-expression operation of the
source is hand-compiled to an executable Lean function specialised to that
pattern, with the scanning, greediness and alternation order of Python's
`re` engine spelled out.  Character classes `\s` and `\d` are modelled by
their ASCII parts (the inputs of interest are ASCII).  Fallible Python code
(an uncaught exception) is modelled with `Option`: `none` is a raised
exception.
-/

namespace Darkseid

/-- Python regex `\s` (ASCII part): the whitespace characters, i.e. the
code points 9-13 and 32. -/
def pyIsSpace (c : Char) : Bool :=
  c.toNat == 32 || (9 ≤ c.toNat && c.toNat ≤ 13)

/-- A run of `n` spaces: the replacement `FileNameParser.repl` produces for a
match of length `n` (line 15-16 of the source). -/
def spaces (n : Nat) : List Char :=
  List.replicate n ' '

/-- Python `"ab" in s` for a two-character needle `[a, b]`. -/
def hasPair (a b : Char) : List Char → Bool
  | x :: y :: rest => (x == a && y == b) || hasPair a b (y :: rest)
  | _ => false

/-- One step of `re.sub("--.*", repl, s)` (or `"__.*"`), lines 66 and 71:
every occurrence of the pair is blanked together with the rest of its line
(`.` does not match a newline), replaced by spaces of equal length.  The
`Bool` flag is the scanning mode: `true` while inside a match being blanked. -/
def subPairRestAux (a b : Char) : Bool → List Char → List Char
  | _, [] => []
  | true, c :: rest =>
    if c == '\n' then '\n' :: subPairRestAux a b false rest
    else ' ' :: subPairRestAux a b true rest
  | false, c :: rest =>
    match rest with
    | y :: _ => if c == a && y == b then ' ' :: subPairRestAux a b true rest
                else c :: subPairRestAux a b false rest
    | [] => [c]

/-- `re.sub("--.*", repl, s)` / `re.sub("__.*", repl, s)`. -/
def subPairRest (a b : Char) (l : List Char) : List Char :=
  subPairRestAux a b false l

/-- `filename.replace("+", " ")`, line 73. -/
def plusToSpace (l : List Char) : List Char :=
  l.map fun c => if c == '+' then ' ' else c

/-- Split off the text up to the first closing delimiter `cl` on the current
line: `some (inner, after)` when a `cl` occurs before any newline, where
`inner` is the text before it and `after` the text after it.  This is the
search the non-greedy `.*?` performs between `\(` and `\)`. -/
def splitToClose (cl : Char) : List Char → Option (List Char × List Char)
  | [] => none
  | c :: rest =>
    if c == cl then some ([], rest)
    else if c == '\n' then none
    else (splitToClose cl rest).map fun p => (c :: p.1, p.2)

/-- `re.sub(r"\(.*?\)", ...)` / `re.sub(r"\[.*?\]", ...)` (lines 76, 77, 165):
each shortest delimited span is replaced; `blank = true` substitutes spaces of
the match's length (the `repl` callback), `blank = false` substitutes the
empty string.  Fueled by the input length (each step consumes at least one
character). -/
def subDelimAux (op cl : Char) (blank : Bool) : Nat → List Char → List Char
  | 0, l => l
  | _ + 1, [] => []
  | fuel + 1, c :: rest =>
    if c == op then
      match splitToClose cl rest with
      | some (inner, after) =>
          (if blank then spaces (inner.length + 2) else []) ++ subDelimAux op cl blank fuel after
      | none => c :: subDelimAux op cl blank fuel rest
    else c :: subDelimAux op cl blank fuel rest

def subDelim (op cl : Char) (blank : Bool) (l : List Char) : List Char :=
  subDelimAux op cl blank l.length l

/-- `re.sub("  +", repl, s)`: every run of two or more spaces is replaced by
spaces of the same length.  Fueled by the input length. -/
def subMultiSpaceAux : Nat → List Char → List Char
  | 0, l => l
  | _ + 1, [] => []
  | fuel + 1, c :: rest =>
    match rest with
    | y :: rest2 =>
      if c == ' ' && y == ' ' then
        let run := rest2.takeWhile (fun x => x == ' ')
        spaces (2 + run.length) ++ subMultiSpaceAux fuel (rest2.dropWhile (fun x => x == ' '))
      else c :: subMultiSpaceAux fuel rest
    | [] => [c]

def subMultiSpace (l : List Char) : List Char :=
  subMultiSpaceAux l.length l

/-- `FileNameParser.fixSpaces` (lines 18-25): `re.sub("[-_]", repl, s)` when
`removeDashes`, else `re.sub("[_]", repl, s)` (each matched character becomes
one space), followed by `re.sub("  +", repl, s)`. -/
def fixSpaces (removeDashes : Bool) (l : List Char) : List Char :=
  subMultiSpace (l.map fun c =>
    if (removeDashes && c == '-') || c == '_' then ' ' else c)

/-- `re.sub(r"of [\d]+", repl, s)`, line 84 (case-sensitive: the pattern is
the literal lowercase `of `): each occurrence of `of ` followed by a maximal
run of at least one digit is blanked with spaces of equal length.  Fueled by
the input length. -/
def subOfDigitsAux : Nat → List Char → List Char
  | 0, l => l
  | _ + 1, [] => []
  | fuel + 1, c :: rest =>
    match c, rest with
    | 'o', 'f' :: ' ' :: rest2 =>
      let ds := rest2.takeWhile Char.isDigit
      if ds.isEmpty then 'o' :: subOfDigitsAux fuel rest
      else spaces (3 + ds.length) ++ subOfDigitsAux fuel (rest2.dropWhile Char.isDigit)
    | _, _ => c :: subOfDigitsAux fuel rest

def subOfDigits (l : List Char) : List Char :=
  subOfDigitsAux l.length l

/-- The cleaning pipeline of `getIssueNumber`, lines 61-84, in source order:
blank after `--` (else after `__`), `+` to space, blank `(...)` and `[...]`,
`fixSpaces`, blank `of <digits>`. -/
def cleanIssue (l : List Char) : List Char :=
  let f := if hasPair '-' '-' l then subPairRest '-' '-' l
           else if hasPair '_' '_' l then subPairRest '_' '_' l
           else l
  let f := plusToSpace f
  let f := subDelim '(' ')' true f
  let f := subDelim '[' ']' true f
  let f := fixSpaces true f
  subOfDigits f

/-- `re.finditer(r"\S+", s)` (lines 92-94): the maximal nonspace runs of the
string, each with its start and end offset (`m.group(0), m.start(), m.end()`).
`i` is the offset of the head of the list. -/
def tokenizeIdx : List Char → Nat → List (List Char × Nat × Nat)
  | [], _ => []
  | c :: rest, i =>
    if pyIsSpace c then tokenizeIdx rest (i + 1)
    else
      match tokenizeIdx rest (i + 1) with
      | (w, s, e) :: ts =>
        if s = i + 1 then (c :: w, i, e) :: ts
        else ([c], i, i + 1) :: (w, s, e) :: ts
      | [] => [([c], i, i + 1)]

/-- Whether a list starts with a match of `([0-9]*\.[0-9]+|[0-9]+)`: either a
digit, or a dot followed by a digit (the backtracking of the greedy `[0-9]*`
against the mandatory `\.` reduces to exactly this test, and the trailing
`(\w*)` of the source patterns always matches). -/
def isNumStart : List Char → Bool
  | c :: rest => c.isDigit || (c == '.' && (match rest with
      | d :: _ => d.isDigit
      | [] => false))
  | [] => false

/-- Whether a list starts with a match of `[-]?(([0-9]*\.[0-9]+|[0-9]+)(\w*))`. -/
def numTest : List Char → Bool
  | '-' :: rest => isNumStart rest
  | l => isNumStart l

/-- `re.match(r"#[-]?(([0-9]*\.[0-9]+|[0-9]+)(\w*))", w)` as a test, line 108. -/
def tier1Test : List Char → Bool
  | c :: rest => c == '#' && numTest rest
  | [] => false

/-- `re.match(r"[-]?(([0-9]*\.[0-9]+|[0-9]+)(\w*))", w)` as a test, line 116. -/
def tier2Test (w : List Char) : Bool :=
  numTest w

/-- `re.match(r"#\S+", w)` as a test, line 122. -/
def tier3Test : List Char → Bool
  | c :: d :: _ => c == '#' && !pyIsSpace d
  | _ => false

/-- `for w in reversed(word_list): if p w: break` — the last element of the
list satisfying `p`, found scanning from the right. -/
def findRev (p : α → Bool) : List α → Option α
  | [] => none
  | x :: rest =>
    match findRev p rest with
    | some r => some r
    | none => if p x then some x else none

/-- Lines 130-131: `if issue[0] == "#": issue = issue[1:]` — strip one
leading `#` from a token. -/
def stripHash : List Char → List Char
  | [] => []
  | c :: rest => if c == '#' then rest else c :: rest

/-- Lines 126-131: unpack the found word, stripping one leading `#`. -/
def finishIssue (w : List Char × Nat × Nat) : List Char × Nat × Nat :=
  (stripHash w.1, w.2.1, w.2.2)

/-- `FileNameParser.getIssueNumber` (lines 51-133): returns the issue string
and its start and end offsets in the (cleaned, length-preserved) filename. -/
def getIssueNumber (filename : List Char) : List Char × Nat × Nat :=
  let wl := tokenizeIdx (cleanIssue filename) 0
  if wl.length > 1 then
    let ws := wl.drop 1
    match findRev (fun w => tier1Test w.1) ws with
    | some w => finishIssue w
    | none =>
      match ws.getLast? with
      | some wlast =>
        if tier2Test wlast.1 then finishIssue wlast
        else
          match findRev (fun w => tier3Test w.1) ws with
          | some w => finishIssue w
          | none => ([], 0, 0)
      | none => ([], 0, 0)
  else ([], 0, 0)

/-- Python `str.split()` with no argument: the whitespace-delimited words. -/
def pySplitWs (l : List Char) : List (List Char) :=
  (tokenizeIdx l 0).map (fun w => w.1)

/-- Python `str.strip()` with no argument: whitespace removed at both ends. -/
def pyStrip (l : List Char) : List Char :=
  ((l.dropWhile pyIsSpace).reverse.dropWhile pyIsSpace).reverse

/-- ASCII lowering, for the `last_word.lower()` comparison of line 190 (the
words it is compared against are ASCII). -/
def asciiLower (c : Char) : Char :=
  if 'A' ≤ c && c ≤ 'Z' then Char.ofNat (c.toNat + 32) else c

/-- Python `series.rsplit(" ", 1)[0]` (line 191): the text before the last
literal space, or the whole string when it has no space. -/
def rsplitSpaceHead (l : List Char) : List Char :=
  match (l.reverse).dropWhile (fun c => c != ' ') with
  | [] => l
  | _ :: pre => pre.reverse

/-- Try `([vV]|[Vv][oO][Ll]\.?\s?)(\d+)\s*$` against the whole remaining
list, returning the `\d+` group.  Alternation order (`[vV]` first) and the
greedy order of the optional `\.` and `\s` are those of Python's engine;
`\d+` greedy against `\s*$` means: the maximal digit run, with everything
after it whitespace to the end. -/
def digitsTail (l : List Char) : Option (List Char) :=
  let ds := l.takeWhile Char.isDigit
  if ds.isEmpty then none
  else if (l.dropWhile Char.isDigit).all pyIsSpace then some ds
  else none

def tryVolMarker : List Char → Option (List Char)
  | v :: rest =>
    if v == 'v' || v == 'V' then
      match digitsTail rest with
      | some ds => some ds
      | none =>
        match rest with
        | o :: lc :: r2 =>
          if (o == 'o' || o == 'O') && (lc == 'l' || lc == 'L') then
            match r2 with
            | '.' :: r3 =>
              (match r3 with
               | sp :: r4 => if pyIsSpace sp then
                    match digitsTail r4 with
                    | some ds => some ds
                    | none => digitsTail r3
                  else digitsTail r3
               | [] => digitsTail r3)
            | sp :: r4 =>
              if pyIsSpace sp then
                match digitsTail r4 with
                | some ds => some ds
                | none => digitsTail r2
              else digitsTail r2
            | [] => none
          else none
        | _ => none
    else none
  | [] => none

/-- At a fixed start position `s`, try `(.+)(marker)(\d+)\s*$` with the
greedy `.+`: group-1 lengths are tried longest first (`.` excludes the
newline).  Returns `(group1, digits)`. -/
def volMatchLen (s : List Char) : Nat → Option (List Char × List Char)
  | 0 => none
  | k + 1 =>
    match tryVolMarker (s.drop (k + 1)) with
    | some ds => some (s.take (k + 1), ds)
    | none => volMatchLen s k

/-- `re.search(r"(.+)([vV]|[Vv][oO][Ll]\.?\s?)(\d+)\s*$", series)` (line 168):
start positions are tried left to right. -/
def volSearch : List Char → Option (List Char × List Char)
  | [] => none
  | c :: rest =>
    match volMatchLen (c :: rest) ((c :: rest).takeWhile (fun x => x != '\n')).length with
    | some r => some r
    | none => volSearch rest

/-- `re.search(r"(\()(\d{4})(-(\d{4}|)|)(\))", last_word)` (line 177): a
four-digit group inside parentheses, optionally followed by a dash and an
optional second four-digit group.  Returns the first four-digit group. -/
def yearParenHit : List Char → Option (List Char)
  | '(' :: d1 :: d2 :: d3 :: d4 :: rest2 =>
    if d1.isDigit && d2.isDigit && d3.isDigit && d4.isDigit then
      match rest2 with
      | '-' :: r2 =>
        (match r2 with
         | e1 :: e2 :: e3 :: e4 :: ')' :: _ =>
           if e1.isDigit && e2.isDigit && e3.isDigit && e4.isDigit then some [d1, d2, d3, d4]
           else match r2 with
                | ')' :: _ => some [d1, d2, d3, d4]
                | _ => none
         | ')' :: _ => some [d1, d2, d3, d4]
         | _ => none)
      | ')' :: _ => some [d1, d2, d3, d4]
      | _ => none
    else none
  | _ => none

def yearParenSearch : List Char → Option (List Char)
  | [] => none
  | c :: rest =>
    match yearParenHit (c :: rest) with
    | some ds => some ds
    | none => yearParenSearch rest

/-- The edition markers of line 187. -/
def oneShotWords : List (List Char) :=
  ["tpb".toList, "os".toList, "one-shot".toList, "ogn".toList, "gn".toList]

/-- `FileNameParser.getSeriesName` (lines 135-195).  `none` models the
uncaught `IndexError` of `series.split()[-1]` on an empty word list: the
surrounding `try` blocks catch only `ValueError` (lines 159-162 and 188-193),
so the exception propagates. -/
def getSeriesName (filename : List Char) (issueStart : Nat) : Option (List Char × List Char) :=
  let f := if issueStart ≠ 0 then filename.take issueStart else filename
  let f := if hasPair '-' '-' f then subPairRest '-' '-' f
           else if hasPair '_' '_' f then subPairRest '_' '_' f
           else f
  let f := plusToSpace f
  let tmpstr := fixSpaces false f
  let series := tmpstr
  match (pySplitWs series).getLast? with
  | none => none
  | some lastWord =>
    let series := subDelim '(' ')' false series
    let sv : List Char × List Char :=
      match volSearch series with
      | some (g1, g3) => (g1, g3)
      | none => (series, [])
    let series := sv.1
    let volume := sv.2
    let volume := if volume.isEmpty then
        match yearParenSearch lastWord with
        | some ds => ds
        | none => []
      else volume
    let series := pyStrip series
    if issueStart = 0 then
      match (pySplitWs series).getLast? with
      | none => none
      | some lw2 =>
        let series := if oneShotWords.contains (lw2.map asciiLower)
          then rsplitSpaceHead series else series
        some (series, pyStrip volume)
    else some (series, pyStrip volume)

/-- `FileNameParser.getYear` (lines 197-209): after the issue end offset,
search for `(\(\d\d\d\d\))|(--\d\d\d\d--)` and keep only the digits. -/
def yearHit : List Char → Option (List Char)
  | '(' :: d1 :: d2 :: d3 :: d4 :: ')' :: _ =>
    if d1.isDigit && d2.isDigit && d3.isDigit && d4.isDigit then some [d1, d2, d3, d4]
    else none
  | _ => none

def yearDashHit : List Char → Option (List Char)
  | '-' :: '-' :: d1 :: d2 :: d3 :: d4 :: '-' :: '-' :: _ =>
    if d1.isDigit && d2.isDigit && d3.isDigit && d4.isDigit then some [d1, d2, d3, d4]
    else none
  | _ => none

def yearScan : List Char → List Char
  | [] => []
  | c :: rest =>
    match yearHit (c :: rest) with
    | some ds => ds
    | none =>
      match yearDashHit (c :: rest) with
      | some ds => ds
      | none => yearScan rest

def getYear (filename : List Char) (issueEnd : Nat) : List Char :=
  yearScan (filename.drop issueEnd)

/-- `re.search(r"(?<=\sof\s)\d+(?=\s)", tmpstr, re.IGNORECASE)` (line 36):
the first digit run preceded by whitespace, `of` (either case), whitespace,
and followed by a whitespace character. -/
def ofHit1 : List Char → Option (List Char)
  | a :: b :: c :: d :: rest2 =>
    if pyIsSpace a && (b == 'o' || b == 'O') && (c == 'f' || c == 'F') && pyIsSpace d then
      let ds := rest2.takeWhile Char.isDigit
      if !ds.isEmpty &&
         (match rest2.dropWhile Char.isDigit with
          | x :: _ => pyIsSpace x
          | [] => false) then some ds
      else none
    else none
  | _ => none

def ofSearch1 : List Char → Option (List Char)
  | [] => none
  | c :: rest =>
    match ofHit1 (c :: rest) with
    | some ds => some ds
    | none => ofSearch1 rest

/-- `re.search(r"(?<=\(of\s)\d+(?=\))", tmpstr, re.IGNORECASE)` (line 42). -/
def ofHit2 : List Char → Option (List Char)
  | a :: b :: c :: d :: rest2 =>
    if a == '(' && (b == 'o' || b == 'O') && (c == 'f' || c == 'F') && pyIsSpace d then
      let ds := rest2.takeWhile Char.isDigit
      if !ds.isEmpty &&
         (match rest2.dropWhile Char.isDigit with
          | x :: _ => x == ')'
          | [] => false) then some ds
      else none
    else none
  | _ => none

def ofSearch2 : List Char → Option (List Char)
  | [] => none
  | c :: rest =>
    match ofHit2 (c :: rest) with
    | some ds => some ds
    | none => ofSearch2 rest

/-- `FileNameParser.getIssueCount` (lines 27-49). -/
def getIssueCount (filename : List Char) (issueEnd : Nat) : List Char :=
  let tmpstr := fixSpaces true (filename.drop issueEnd)
  let count := match ofSearch1 tmpstr with
    | some ds => ds
    | none =>
      match ofSearch2 tmpstr with
      | some ds => ds
      | none => []
  count.dropWhile (fun c => c == '0')

/-- Python `s.split(p, 1)[1]` for a two-character separator: everything after
the first occurrence of the pair (callers guard on `hasPair`, so the pair is
present; on absence this returns `[]`). -/
def afterFirstPair (a b : Char) : List Char → List Char
  | [] => []
  | c :: rest =>
    match rest with
    | y :: rest2 => if c == a && y == b then rest2 else afterFirstPair a b rest
    | [] => []

/-- Python `s.replace(old, new, 1)`: first occurrence only. -/
def replaceFirst (l pat repl : List Char) : List Char :=
  match l with
  | [] => []
  | c :: rest =>
    if pat.isPrefixOf l then repl ++ l.drop pat.length
    else c :: replaceFirst rest pat repl

/-- Python `s.replace(old, new)`: every (non-overlapping, left-to-right)
occurrence; scanning resumes after the replacement.  Fueled by the input
length (`pat` is nonempty at every use site). -/
def replaceAllAux (pat repl : List Char) : Nat → List Char → List Char
  | 0, l => l
  | _ + 1, [] => []
  | fuel + 1, c :: rest =>
    if pat.isPrefixOf (c :: rest) then repl ++ replaceAllAux pat repl fuel ((c :: rest).drop pat.length)
    else c :: replaceAllAux pat repl fuel rest

def replaceAll (l pat repl : List Char) : List Char :=
  replaceAllAux pat repl l.length l

/-- `FileNameParser.getRemainder` (lines 211-234). -/
def getRemainder (filename year count volume : List Char) (issueEnd : Nat) : List Char :=
  let remainder :=
    if hasPair '-' '-' filename then afterFirstPair '-' '-' filename
    else if hasPair '_' '_' filename then afterFirstPair '_' '_' filename
    else if issueEnd ≠ 0 then filename.drop issueEnd
    else []
  let remainder := fixSpaces false remainder
  let remainder := if !volume.isEmpty
    then replaceFirst remainder ('V' :: 'o' :: 'l' :: '.' :: volume) [] else remainder
  let remainder := if !year.isEmpty then replaceFirst remainder year [] else remainder
  let remainder := if !count.isEmpty
    then replaceFirst remainder ('o' :: 'f' :: ' ' :: count) [] else remainder
  let remainder := replaceAll remainder ['(', ')'] []
  let remainder := replaceAll remainder [' ', ' '] [' ']
  pyStrip remainder

/-! Preprocessing: `pathlib.Path(filename).stem`, `urllib.parse.unquote`
(collaborator contracts of the spec: a path-stem extractor and a standard
percent-decoder), and the `_28`/`_29` repair of `parseFilename`. -/

/-- Split a list at every occurrence of `sep`. -/
def splitChar (sep : Char) : List Char → List (List Char)
  | [] => [[]]
  | c :: rest =>
    match splitChar sep rest with
    | r :: rs => if c == sep then [] :: r :: rs else (c :: r) :: rs
    | [] => [[c]]

/-- `pathlib.PurePosixPath(s).name`: the last path component, with empty and
single-dot components dropped. -/
def pathName (l : List Char) : List Char :=
  ((splitChar '/' l).filter (fun p => !p.isEmpty && p != ['.'])).getLastD []

/-- `pathlib.Path(s).stem`: the name without its suffix; the suffix starts at
the last dot when that dot is neither the first nor the last character of the
name (`0 < i < len(name) - 1` in `pathlib`). -/
def pathStem (l : List Char) : List Char :=
  let n := pathName l
  match n.reverse.findIdx? (fun c => c == '.') with
  | some j =>
    let i := n.length - 1 - j
    if 0 < i && i < n.length - 1 then n.take i else n
  | none => n

/-- The value of one hexadecimal digit, accepting both letter cases (code
points 48-57 are the digits, 97-102 and 65-70 the letters). -/
def hexVal (c : Char) : Option Nat :=
  let n := c.toNat
  if 48 ≤ n ∧ n ≤ 57 then some (n - 48)
  else if 97 ≤ n ∧ n ≤ 102 then some (n - 87)
  else if 65 ≤ n ∧ n ≤ 70 then some (n - 55)
  else none

/-- Collect the byte values of a maximal run of `%XX` escapes. -/
def collectBytes : List Char → List Nat × List Char
  | '%' :: h1 :: h2 :: rest =>
    match hexVal h1, hexVal h2 with
    | some v1, some v2 =>
      let p := collectBytes rest
      ((16 * v1 + v2) :: p.1, p.2)
    | _, _ => ([], '%' :: h1 :: h2 :: rest)
  | l => ([], l)

def isUtf8Cont (b : Nat) : Bool :=
  0x80 ≤ b && b ≤ 0xBF

/-- Decode a byte list as UTF-8 with `errors='replace'`: every maximal
invalid subpart becomes one U+FFFD.  Fueled by the list length (every step
consumes at least one byte). -/
def utf8DecodeAux : Nat → List Nat → List Char
  | 0, _ => []
  | _ + 1, [] => []
  | fuel + 1, b :: rest =>
    let utf8Decode := utf8DecodeAux fuel
    if b < 0x80 then Char.ofNat b :: utf8Decode rest
    else if 0xC2 ≤ b && b ≤ 0xDF then
      match rest with
      | c1 :: r2 =>
        if isUtf8Cont c1 then Char.ofNat ((b - 0xC0) * 64 + (c1 - 0x80)) :: utf8Decode r2
        else '�' :: utf8Decode rest
      | [] => ['�']
    else if 0xE0 ≤ b && b ≤ 0xEF then
      let lo1 := if b = 0xE0 then 0xA0 else 0x80
      let hi1 := if b = 0xED then 0x9F else 0xBF
      match rest with
      | c1 :: r2 =>
        if lo1 ≤ c1 && c1 ≤ hi1 then
          match r2 with
          | c2 :: r3 =>
            if isUtf8Cont c2 then
              Char.ofNat ((b - 0xE0) * 4096 + (c1 - 0x80) * 64 + (c2 - 0x80)) :: utf8Decode r3
            else '�' :: utf8Decode r2
          | [] => ['�']
        else '�' :: utf8Decode rest
      | [] => ['�']
    else if 0xF0 ≤ b && b ≤ 0xF4 then
      let lo1 := if b = 0xF0 then 0x90 else 0x80
      let hi1 := if b = 0xF4 then 0x8F else 0xBF
      match rest with
      | c1 :: r2 =>
        if lo1 ≤ c1 && c1 ≤ hi1 then
          match r2 with
          | c2 :: r3 =>
            if isUtf8Cont c2 then
              match r3 with
              | c3 :: r4 =>
                if isUtf8Cont c3 then
                  Char.ofNat ((b - 0xF0) * 262144 + (c1 - 0x80) * 4096 + (c2 - 0x80) * 64 + (c3 - 0x80))
                    :: utf8Decode r4
                else '�' :: utf8Decode r3
              | [] => ['�']
            else '�' :: utf8Decode r2
          | [] => ['�']
        else '�' :: utf8Decode rest
      | [] => ['�']
    else '�' :: utf8Decode rest

def utf8Decode (bs : List Nat) : List Char :=
  utf8DecodeAux bs.length bs

/-- `urllib.parse.unquote(s)` with the default UTF-8 encoding and `replace`
error handling: each maximal run of valid `%XX` escapes is decoded as UTF-8;
a `%` not followed by two hex digits is literal.  Fueled by the input length
(every step consumes at least one character). -/
def pyUnquoteAux : Nat → List Char → List Char
  | 0, l => l
  | _ + 1, [] => []
  | fuel + 1, l =>
    match l with
    | '%' :: h1 :: h2 :: rest =>
      match hexVal h1, hexVal h2 with
      | some v1, some v2 =>
        let p := collectBytes rest
        utf8Decode ((16 * v1 + v2) :: p.1) ++ pyUnquoteAux fuel p.2
      | _, _ => '%' :: pyUnquoteAux fuel (h1 :: h2 :: rest)
    | c :: rest => c :: pyUnquoteAux fuel rest
    | [] => []

def pyUnquote (l : List Char) : List Char :=
  pyUnquoteAux l.length l

/-- Python `s.count(sub)`: non-overlapping occurrences, scanning left to
right.  Fueled by the input length (`pat` is nonempty at every use site). -/
def countOccAux (pat : List Char) : Nat → List Char → Nat
  | 0, _ => 0
  | _ + 1, [] => 0
  | fuel + 1, c :: rest =>
    if pat.isPrefixOf (c :: rest) then 1 + countOccAux pat fuel ((c :: rest).drop pat.length)
    else countOccAux pat fuel rest

def countOcc (l pat : List Char) : Nat :=
  countOccAux pat l.length l

/-- Lines 243-248 of `parseFilename`: the double-URL-encoding repair. -/
def repair2829 (l : List Char) : List Char :=
  if countOcc l "_28".toList > 1 && countOcc l "_29".toList > 1 then
    replaceAll (replaceAll l "_28".toList ['(']) "_29".toList [')']
  else l

/-- Lines 238-248 of `parseFilename`: stem, URL-decode, repair. -/
def preprocess (l : List Char) : List Char :=
  repair2829 (pyUnquote (pathStem l))

/-- Lines 263-269 of `parseFilename`: when the issue is nonempty, strip its
leading zeros; an all-zero issue becomes `0`; a leading dot gets `0`
prepended. -/
def pyFinalize (issue : List Char) : List Char :=
  if issue.isEmpty then issue
  else
    let t := issue.dropWhile (fun c => c == '0')
    let t := if t.isEmpty then ['0'] else t
    match t with
    | '.' :: _ => '0' :: t
    | _ => t

/-- The six result fields of a parse (section 3 of the spec). -/
structure ParseResult where
  series : List Char
  volume : List Char
  issue : List Char
  issue_count : List Char
  year : List Char
  remainder : List Char
deriving Repr, DecidableEq

/-- `FileNameParser.parseFilename` (lines 236-269) as a function of its
input.  `none` models the uncaught `IndexError` raised inside
`getSeriesName`. -/
def parseFilename (input : List Char) : Option ParseResult :=
  match getSeriesName (preprocess input) (getIssueNumber (preprocess input)).2.1 with
  | none => none
  | some (series, volume) =>
    let filename := preprocess input
    let issueEnd := if (getIssueNumber filename).2.2 = 0 then series.length
                    else (getIssueNumber filename).2.2
    let year := getYear filename issueEnd
    let count := getIssueCount filename issueEnd
    let remainder := getRemainder filename year count volume issueEnd
    some { series := series, volume := volume,
           issue := pyFinalize (getIssueNumber (preprocess input)).1,
           issue_count := count, year := year, remainder := remainder }

/-- The parser instance's attributes `self.issue`, `self.series`,
`self.volume`, `self.year`, `self.issue_count`, `self.remainder`. -/
structure ParserState where
  issue : List Char
  series : List Char
  volume : List Char
  year : List Char
  issue_count : List Char
  remainder : List Char
deriving Repr, DecidableEq

/-- `parseFilename` as the method on a parser instance: the attribute
assignments of lines 250-269 in source order.  An uncaught exception is
`Except.error` carrying the instance's attributes at the raise point
(line 250's assignment to `self.issue` has already happened). -/
def parseFilenameState (st : ParserState) (input : List Char) : Except ParserState ParserState :=
  match getSeriesName (preprocess input) (getIssueNumber (preprocess input)).2.1 with
  | none => Except.error { st with issue := (getIssueNumber (preprocess input)).1 }
  | some (series, volume) =>
    let filename := preprocess input
    let issueEnd := if (getIssueNumber filename).2.2 = 0 then series.length
                    else (getIssueNumber filename).2.2
    let year := getYear filename issueEnd
    let count := getIssueCount filename issueEnd
    Except.ok { issue := pyFinalize (getIssueNumber filename).1,
                series := series, volume := volume, year := year, issue_count := count,
                remainder := getRemainder filename year count volume issueEnd }

/-! Definitions following the specification's wording (for the refinement
claims), to be compared with the definitions translated from the source. -/

/-- The issue-number pass as the specification words it: tokenize the
cleaned filename; abort with an empty issue and zero offsets when at most
one token exists; the first token is never a candidate; then the three-tier
candidate search in strict precedence order, rightmost first for tiers 1
and 3, only the last token for tier 2; finally strip a leading `#`. -/
def issueNumberClaimed (filename : List Char) : List Char × Nat × Nat :=
  let toks := tokenizeIdx (cleanIssue filename) 0
  if toks.length ≤ 1 then ([], 0, 0)
  else
    let cands := toks.drop 1
    let chosen : Option (List Char × Nat × Nat) :=
      match cands.reverse.find? (fun w => tier1Test w.1) with
      | some w => some w
      | none =>
        match cands.getLast? with
        | some wl =>
          if tier2Test wl.1 then some wl
          else cands.reverse.find? (fun w => tier3Test w.1)
        | none => cands.reverse.find? (fun w => tier3Test w.1)
    match chosen with
    | some w => (stripHash w.1, w.2.1, w.2.2)
    | none => ([], 0, 0)

/-- The position of the first `--` or `__` separator, whichever occurs
first, reading "everything after the first such separator" literally. -/
def firstSepIdx : List Char → Option Nat
  | [] => none
  | [_] => none
  | x :: y :: rest =>
    if (x == '-' && y == '-') || (x == '_' && y == '_') then some 0
    else (firstSepIdx (y :: rest)).map (· + 1)

/-- The remainder computation as the claim words it: everything after the
first `--`/`__` separator, else everything after the issue end offset, else
empty; then the volume (as `Vol.<volume>`), the year and the count (as
`of <count>`) each removed at their first occurrence, `()` leftovers and
doubled spaces removed, and the result trimmed. -/
def remainderClaimed (filename year count volume : List Char) (issueEnd : Nat) : List Char :=
  let remainder := match firstSepIdx filename with
    | some i => filename.drop (i + 2)
    | none => if issueEnd ≠ 0 then filename.drop issueEnd else []
  let remainder := if !volume.isEmpty
    then replaceFirst remainder ('V' :: 'o' :: 'l' :: '.' :: volume) [] else remainder
  let remainder := if !year.isEmpty then replaceFirst remainder year [] else remainder
  let remainder := if !count.isEmpty
    then replaceFirst remainder ('o' :: 'f' :: ' ' :: count) [] else remainder
  let remainder := replaceAll remainder ['(', ')'] []
  let remainder := replaceAll remainder [' ', ' '] [' ']
  pyStrip remainder

/-- The position of the first occurrence of the pair `[a, b]`. -/
def idxOfPair (a b : Char) : List Char → Option Nat
  | [] => none
  | [_] => none
  | x :: y :: rest =>
    if x == a && y == b then some 0
    else (idxOfPair a b (y :: rest)).map (· + 1)

/-- The remainder computation as amended: everything after the first `--`
(preferring `--` over `__` when both occur), else after the first `__`,
else after the issue end offset, else empty; underscores are then replaced
by spaces; then the removals, `()` and doubled-space cleanup (one pass) and
the trim as before. -/
def remainderAmended (filename year count volume : List Char) (issueEnd : Nat) : List Char :=
  let remainder := match idxOfPair '-' '-' filename with
    | some i => filename.drop (i + 2)
    | none =>
      match idxOfPair '_' '_' filename with
      | some i => filename.drop (i + 2)
      | none => if issueEnd ≠ 0 then filename.drop issueEnd else []
  let remainder := remainder.map (fun c => if c == '_' then ' ' else c)
  let remainder := if !volume.isEmpty
    then replaceFirst remainder ('V' :: 'o' :: 'l' :: '.' :: volume) [] else remainder
  let remainder := if !year.isEmpty then replaceFirst remainder year [] else remainder
  let remainder := if !count.isEmpty
    then replaceFirst remainder ('o' :: 'f' :: ' ' :: count) [] else remainder
  let remainder := replaceAll remainder ['(', ')'] []
  let remainder := replaceAll remainder [' ', ' '] [' ']
  pyStrip remainder

/-- The final issue normalization as the claim words it: strip leading
zeros; if stripping leaves the string empty it becomes `0`; if after
stripping it begins with a decimal point, `0` is prepended. -/
def finalizeClaimed (issue : List Char) : List Char :=
  let t := issue.dropWhile (fun c => c == '0')
  if t.isEmpty then ['0']
  else
    match t with
    | '.' :: _ => '0' :: t
    | _ => t

/-! The claim theorems. -/

/-- Claim C1: the claim states that `parse` terminates without raising for
every input and returns six text fields.  The code does not: when the word
list of the (possibly truncated) filename is empty, `series.split()[-1]`
in `getSeriesName` raises `IndexError` — the surrounding handler catches
only `ValueError` — and the exception escapes `parseFilename`.  This
theorem evaluates the code at three such inputs: `"_.cbz"` (the first
`split()[-1]`, line 160), `"(2004).cbz"` (the second, line 189, reached
because removing the parenthetical empties the series), and the empty
string. -/
theorem parseFilename_raises_on_wordless_series :
    parseFilename (String.toList "_.cbz") = none ∧
    parseFilename (String.toList "(2004).cbz") = none ∧
    parseFilename (String.toList "") = none := by
  refine ⟨by decide, by decide, by decide⟩

/-- Claim C2, counterexample: the claim states that the Pass-2 blanking of
`of <digits>` in `getIssueNumber` is case-insensitive, `OF 12` being
blanked exactly as `of 12`.  It is not: `re.sub(r"of [\d]+", ...)` at line
84 carries no `re.IGNORECASE`, so `OF 12` survives the cleaning, and the
surviving `12` token is then picked as the issue number, while the
lowercase variant yields issue `3`. -/
theorem subOfDigits_case_sensitive_counterexample :
    subOfDigits (String.toList "Batman 3 OF 12") = String.toList "Batman 3 OF 12" ∧
    subOfDigits (String.toList "Batman 3 of 12") = String.toList "Batman 3      " ∧
    (parseFilename (String.toList "Batman 3 of 12.cbz")).map (fun r => r.issue) =
      some (String.toList "3") ∧
    (parseFilename (String.toList "Batman 3 OF 12.cbz")).map (fun r => r.issue) =
      some (String.toList "12") := by
  refine ⟨by decide, by decide, by decide, by decide⟩

/-- Claim C2, as amended: `getIssueCount`'s `of N` search is
case-insensitive (both the `of <n> ` and the `(of <n>)` form, with leading
zeros stripped), but the Pass-2 blanking of `of <digits>` in
`getIssueNumber` is case-sensitive and matches only a lowercase `of`. -/
theorem ofMatching_case_sensitivity :
    getIssueCount (String.toList "x of 12 y") 0 = String.toList "12" ∧
    getIssueCount (String.toList "x OF 12 y") 0 = String.toList "12" ∧
    getIssueCount (String.toList "A oF 051 x") 0 = String.toList "51" ∧
    getIssueCount (String.toList "A (Of 03) x") 0 = String.toList "3" ∧
    subOfDigits (String.toList "x of 12 ") = String.toList "x       " ∧
    subOfDigits (String.toList "x OF 12 ") = String.toList "x OF 12 " ∧
    subOfDigits (String.toList "x oF 12 ") = String.toList "x oF 12 " ∧
    subOfDigits (String.toList "x Of 12 ") = String.toList "x Of 12 " := by
  refine ⟨by decide, by decide, by decide, by decide, by decide, by decide, by decide, by decide⟩

theorem replicate_length_takeWhile_space (l : List Char) :
    List.replicate (l.takeWhile (fun x => x == ' ')).length ' ' =
      l.takeWhile (fun x => x == ' ') := by
  induction l with
  | nil => rfl
  | cons c rest ih =>
    simp only [List.takeWhile_cons]
    by_cases hc : (c == ' ') = true
    · rw [if_pos hc, List.length_cons, List.replicate_succ, ih]
      have hce : c = ' ' := by simpa using hc
      rw [hce]
    · rw [if_neg hc]
      rfl

theorem subMultiSpaceAux_eq_id : ∀ (fuel : Nat) (l : List Char),
    subMultiSpaceAux fuel l = l := by
  intro fuel
  induction fuel with
  | zero => intro l; rfl
  | succ n ih =>
    intro l
    cases l with
    | nil => rfl
    | cons c rest =>
      cases rest with
      | nil => rfl
      | cons y rest2 =>
        simp only [subMultiSpaceAux]
        by_cases hcy : (c == ' ' && y == ' ') = true
        · rw [if_pos hcy]
          simp only [Bool.and_eq_true, beq_iff_eq] at hcy
          obtain ⟨hc, hy⟩ := hcy
          subst hc; subst hy
          rw [ih (rest2.dropWhile (fun x => x == ' '))]
          simp only [spaces, List.replicate_add]
          rw [replicate_length_takeWhile_space rest2]
          simp only [List.append_assoc]
          rw [List.takeWhile_append_dropWhile]
          rfl
        · rw [if_neg hcy, ih (y :: rest2)]

theorem subMultiSpace_eq_id (l : List Char) : subMultiSpace l = l :=
  subMultiSpaceAux_eq_id l.length l

/-- `re.sub("  +")` with a same-length space replacement is the identity, so
`fixSpaces` is the character map alone. -/
theorem fixSpaces_false_eq_map (l : List Char) :
    fixSpaces false l = l.map (fun c => if c == '_' then ' ' else c) := by
  unfold fixSpaces
  rw [subMultiSpace_eq_id]
  congr 1

theorem idxOfPair_none (a b : Char) : ∀ l : List Char,
    idxOfPair a b l = none → hasPair a b l = false := by
  intro l
  induction l with
  | nil => intro _; rfl
  | cons c rest ih =>
    intro h
    cases rest with
    | nil => rfl
    | cons y rest2 =>
      simp only [idxOfPair] at h
      by_cases hcy : (c == a && y == b) = true
      · rw [if_pos hcy] at h; exact absurd h (by simp)
      · rw [if_neg hcy] at h
        simp only [Option.map_eq_none'] at h
        simp only [hasPair, hcy, Bool.false_or]
        exact ih h

theorem idxOfPair_some (a b : Char) : ∀ (l : List Char) (i : Nat),
    idxOfPair a b l = some i →
    hasPair a b l = true ∧ afterFirstPair a b l = l.drop (i + 2) := by
  intro l
  induction l with
  | nil => intro i h; simp [idxOfPair] at h
  | cons c rest ih =>
    intro i h
    cases rest with
    | nil => simp [idxOfPair] at h
    | cons y rest2 =>
      simp only [idxOfPair] at h
      by_cases hcy : (c == a && y == b) = true
      · rw [if_pos hcy] at h
        simp only [Option.some.injEq] at h
        subst h
        refine ⟨by simp [hasPair, hcy], ?_⟩
        have hstep : afterFirstPair a b (c :: y :: rest2) = rest2 := by
          simp only [afterFirstPair]
          rw [if_pos hcy]
        rw [hstep]
        rfl
      · rw [if_neg hcy] at h
        simp only [Option.map_eq_some'] at h
        obtain ⟨j, hj, hji⟩ := h
        obtain ⟨hp, ha⟩ := ih j hj
        subst hji
        refine ⟨by simp [hasPair, hcy, hp], ?_⟩
        have hstep : afterFirstPair a b (c :: y :: rest2) = afterFirstPair a b (y :: rest2) := by
          simp only [afterFirstPair]
          rw [if_neg hcy]
        rw [hstep, ha]
        rfl

theorem replaceAllAux_length_le (pat repl : List Char) (hle : repl.length ≤ pat.length) :
    ∀ fuel l, (replaceAllAux pat repl fuel l).length ≤ l.length := by
  intro fuel
  induction fuel with
  | zero => intro l; simp [replaceAllAux]
  | succ n ih =>
    intro l
    cases l with
    | nil => simp [replaceAllAux]
    | cons c rest =>
      simp only [replaceAllAux]
      split
      · next hpre =>
        have hpfx := List.isPrefixOf_iff_prefix.mp hpre
        have hp : pat.length ≤ (c :: rest).length := hpfx.length_le
        have h2 := ih ((c :: rest).drop pat.length)
        simp only [List.length_append, List.length_drop, List.length_cons] at *
        omega
      · have h2 := ih rest
        simp only [List.length_cons]
        omega

theorem replaceAllAux_length_lt (pat repl : List Char) (hlt : repl.length < pat.length) :
    ∀ fuel l, 0 < countOccAux pat fuel l →
      (replaceAllAux pat repl fuel l).length < l.length := by
  intro fuel
  induction fuel with
  | zero => intro l h; simp [countOccAux] at h
  | succ n ih =>
    intro l h
    cases l with
    | nil => simp [countOccAux] at h
    | cons c rest =>
      simp only [replaceAllAux]
      by_cases hpre : pat.isPrefixOf (c :: rest)
      · rw [if_pos hpre]
        have hpfx := List.isPrefixOf_iff_prefix.mp hpre
        have hp : pat.length ≤ (c :: rest).length := hpfx.length_le
        have h2 := replaceAllAux_length_le pat repl (Nat.le_of_lt hlt) n ((c :: rest).drop pat.length)
        simp only [List.length_append, List.length_drop, List.length_cons] at *
        omega
      · rw [if_neg hpre]
        simp only [countOccAux, if_neg hpre] at h
        have h2 := ih rest h
        simp only [List.length_cons]
        omega

/-- Claim C9: the `_28`/`_29` double-encoding repair of `parseFilename`
runs exactly when each of `_28` and `_29` occurs more than once in the
URL-decoded stem (and then it really modifies the string, since the
replacements shrink it); a string with at most one of either — in
particular exactly one `_28` — is left unmodified. -/
theorem repair2829_conditional : ∀ l : List Char,
    (countOcc l (String.toList "_28") > 1 → countOcc l (String.toList "_29") > 1 →
      repair2829 l =
        replaceAll (replaceAll l (String.toList "_28") ['(']) (String.toList "_29") [')'] ∧
      repair2829 l ≠ l) ∧
    (¬(countOcc l (String.toList "_28") > 1 ∧ countOcc l (String.toList "_29") > 1) →
      repair2829 l = l) ∧
    (countOcc l (String.toList "_28") = 1 → repair2829 l = l) := by
  intro l
  constructor
  · intro h28 h29
    have heqr : repair2829 l =
        replaceAll (replaceAll l (String.toList "_28") ['(']) (String.toList "_29") [')'] := by
      simp only [repair2829]
      split
      · rfl
      · next hcond =>
        exact absurd (by simp only [Bool.and_eq_true, decide_eq_true_eq]; exact ⟨h28, h29⟩) hcond
    refine ⟨heqr, ?_⟩
    intro heq
    have hlt : (replaceAll l (String.toList "_28") ['(']).length < l.length :=
      replaceAllAux_length_lt (String.toList "_28") ['('] (by decide) l.length l
        (Nat.lt_of_lt_of_le Nat.zero_lt_one (Nat.le_of_lt h28))
    have hle : (replaceAll (replaceAll l (String.toList "_28") ['('])
        (String.toList "_29") [')']).length ≤ (replaceAll l (String.toList "_28") ['(']).length :=
      replaceAllAux_length_le (String.toList "_29") [')'] (by decide) _ _
    have hlen := congrArg List.length (heqr.symm.trans heq)
    omega
  constructor
  · intro h
    simp only [repair2829]
    split
    · next hcond =>
      simp only [Bool.and_eq_true, decide_eq_true_eq] at hcond
      exact absurd hcond h
    · rfl
  · intro h
    simp only [repair2829]
    split
    · next hcond =>
      simp only [Bool.and_eq_true, decide_eq_true_eq] at hcond
      omega
    · rfl

/-- Witness for C9's theorem at concrete inputs: `a_28b_28c_29d_29` (both
counts are 2, the repair modifies the string) and `z_28w` (exactly one
`_28`, untouched). -/
theorem repair2829_conditional_witness :
    repair2829 (String.toList "a_28b_28c_29d_29") ≠ String.toList "a_28b_28c_29d_29" ∧
    repair2829 (String.toList "z_28w") = String.toList "z_28w" :=
  ⟨((repair2829_conditional (String.toList "a_28b_28c_29d_29")).1
      (by decide) (by decide)).2,
   (repair2829_conditional (String.toList "z_28w")).2.2 (by decide)⟩

/-- Claim C10: two invocations of `parseFilename` on the same input that
both return normally yield identical values for all six result fields,
whatever the parser instance's attributes held beforehand: every field of
the returned state is overwritten from the input alone. -/
theorem parseFilenameState_deterministic :
    ∀ (st1 st2 : ParserState) (input : List Char) (r1 r2 : ParserState),
      parseFilenameState st1 input = Except.ok r1 →
      parseFilenameState st2 input = Except.ok r2 → r1 = r2 := by
  intro st1 st2 input r1 r2 h1 h2
  revert h1 h2
  unfold parseFilenameState
  cases getSeriesName (preprocess input) (getIssueNumber (preprocess input)).2.1 with
  | none => intro h1 h2; exact absurd h1 (by simp)
  | some sv =>
    cases sv with
    | mk series volume =>
      intro h1 h2
      rw [← Except.ok.inj h1, ← Except.ok.inj h2]

/-- Witness for C10's theorem: two parses of `Saga v2 #5.cbr` from two
different instance states agree. -/
theorem parseFilenameState_deterministic_witness :
    (match parseFilenameState
        ⟨String.toList "9", String.toList "Old", String.toList "7",
         String.toList "1999", String.toList "9", String.toList "junk"⟩
        (String.toList "Saga v2 #5.cbr"),
      parseFilenameState ⟨[], [], [], [], [], []⟩ (String.toList "Saga v2 #5.cbr") with
     | Except.ok r1, Except.ok r2 => r1 = r2
     | _, _ => False) := by
  have h1 : parseFilenameState
      ⟨String.toList "9", String.toList "Old", String.toList "7",
       String.toList "1999", String.toList "9", String.toList "junk"⟩
      (String.toList "Saga v2 #5.cbr") =
      Except.ok ⟨String.toList "5", String.toList "Saga", String.toList "2", [], [], []⟩ := by
    rfl
  have h2 : parseFilenameState ⟨[], [], [], [], [], []⟩ (String.toList "Saga v2 #5.cbr") =
      Except.ok ⟨String.toList "5", String.toList "Saga", String.toList "2", [], [], []⟩ := by
    rfl
  exact parseFilenameState_deterministic _ _ _ _ _ h1 h2

/-- Claim C3, counterexample: the claim's description of the remainder
computation fails on `A__b--c_d` (with no year, count or volume and a zero
issue end offset): read literally — everything after the first `--`/`__`
separator, no underscore normalization — it yields `b--c_d`, while the code
prefers `--` over `__` (lines 216-219) and passes the remainder through
`fixSpaces` (line 223), yielding `c d`. -/
theorem getRemainder_claimed_counterexample :
    getRemainder (String.toList "A__b--c_d") [] [] [] 0 = String.toList "c d" ∧
    remainderClaimed (String.toList "A__b--c_d") [] [] [] 0 = String.toList "b--c_d" ∧
    ¬ getRemainder (String.toList "A__b--c_d") [] [] [] 0 =
        remainderClaimed (String.toList "A__b--c_d") [] [] [] 0 := by
  refine ⟨by decide, by decide, by decide⟩

/-- Claim C3, as amended: the remainder is everything after the first `--`
if one occurs (`--` takes precedence over `__` when both do), else after
the first `__`, else after the issue end offset when that is known, else
empty; underscores in it are then replaced by spaces; then the volume (as
`Vol.<volume>`), the year and the count (as `of <count>`) are each removed
at their first occurrence, `()` leftovers are removed and doubled spaces
are collapsed in one pass, and the result is trimmed.  And
`parse("Hero--extra junk here.cbz")` has remainder `extra junk here`. -/
theorem getRemainder_matches_amended :
    (∀ (filename year count volume : List Char) (issueEnd : Nat),
        getRemainder filename year count volume issueEnd =
          remainderAmended filename year count volume issueEnd) ∧
    (parseFilename (String.toList "Hero--extra junk here.cbz")).map (fun r => r.remainder) =
      some (String.toList "extra junk here") := by
  refine ⟨?_, by decide⟩
  intro filename year count volume issueEnd
  have hhead :
      (if hasPair '-' '-' filename then afterFirstPair '-' '-' filename
       else if hasPair '_' '_' filename then afterFirstPair '_' '_' filename
       else if issueEnd ≠ 0 then filename.drop issueEnd else []) =
      (match idxOfPair '-' '-' filename with
       | some i => filename.drop (i + 2)
       | none =>
         match idxOfPair '_' '_' filename with
         | some i => filename.drop (i + 2)
         | none => if issueEnd ≠ 0 then filename.drop issueEnd else []) := by
    cases hdd : idxOfPair '-' '-' filename with
    | some i =>
      obtain ⟨hp, ha⟩ := idxOfPair_some '-' '-' filename i hdd
      rw [if_pos hp, ha]
    | none =>
      have hp := idxOfPair_none '-' '-' filename hdd
      rw [if_neg (by simp [hp])]
      cases huu : idxOfPair '_' '_' filename with
      | some i =>
        obtain ⟨hp2, ha2⟩ := idxOfPair_some '_' '_' filename i huu
        rw [if_pos hp2, ha2]
      | none =>
        have hp2 := idxOfPair_none '_' '_' filename huu
        rw [if_neg (by simp [hp2])]
  simp only [getRemainder, remainderAmended]
  rw [hhead, fixSpaces_false_eq_map]

theorem subPairRestAux_true_cons (a b c : Char) (rest : List Char) :
    subPairRestAux a b true (c :: rest) =
      if c == '\n' then '\n' :: subPairRestAux a b false rest
      else ' ' :: subPairRestAux a b true rest := rfl

theorem subPairRestAux_false_cons2 (a b c y : Char) (rest2 : List Char) :
    subPairRestAux a b false (c :: y :: rest2) =
      if c == a && y == b then ' ' :: subPairRestAux a b true (y :: rest2)
      else c :: subPairRestAux a b false (y :: rest2) := rfl

theorem subPairRestAux_length (a b : Char) : ∀ (l : List Char) (m : Bool),
    (subPairRestAux a b m l).length = l.length := by
  intro l
  induction l with
  | nil => intro m; cases m <;> rfl
  | cons c rest ih =>
    intro m
    cases m with
    | true =>
      rw [subPairRestAux_true_cons]
      by_cases hc : (c == '\n') = true
      · rw [if_pos hc]; simp only [List.length_cons, ih false]
      · rw [if_neg hc]; simp only [List.length_cons, ih true]
    | false =>
      cases rest with
      | nil => rfl
      | cons y rest2 =>
        rw [subPairRestAux_false_cons2]
        by_cases hcy : (c == a && y == b) = true
        · rw [if_pos hcy]; simp only [List.length_cons, ih true]
        · rw [if_neg hcy]; simp only [List.length_cons, ih false]

theorem subPairRest_length (a b : Char) (l : List Char) :
    (subPairRest a b l).length = l.length :=
  subPairRestAux_length a b l false

theorem plusToSpace_length (l : List Char) : (plusToSpace l).length = l.length := by
  simp [plusToSpace]

theorem splitToClose_length (cl : Char) : ∀ (l inner after : List Char),
    splitToClose cl l = some (inner, after) →
    l.length = inner.length + 1 + after.length := by
  intro l
  induction l with
  | nil => intro inner after h; simp [splitToClose] at h
  | cons c rest ih =>
    intro inner after h
    simp only [splitToClose] at h
    by_cases hc : (c == cl) = true
    · rw [if_pos hc] at h
      simp only [Option.some.injEq, Prod.mk.injEq] at h
      obtain ⟨h1, h2⟩ := h
      subst h1; subst h2
      simp only [List.length_cons, List.length_nil]
      omega
    · rw [if_neg hc] at h
      by_cases hn : (c == '\n') = true
      · rw [if_pos hn] at h; exact absurd h (by simp)
      · rw [if_neg hn] at h
        simp only [Option.map_eq_some'] at h
        obtain ⟨⟨a2, b2⟩, hsp, heq⟩ := h
        have hlen := ih a2 b2 hsp
        simp only [Prod.mk.injEq] at heq
        obtain ⟨h1, h2⟩ := heq
        subst h1; subst h2
        simp only [List.length_cons]
        omega

theorem subDelimAux_length (op cl : Char) : ∀ (fuel : Nat) (l : List Char),
    (subDelimAux op cl true fuel l).length = l.length := by
  intro fuel
  induction fuel with
  | zero => intro l; rfl
  | succ n ih =>
    intro l
    cases l with
    | nil => rfl
    | cons c rest =>
      simp only [subDelimAux]
      by_cases hc : (c == op) = true
      · rw [if_pos hc]
        cases hsp : splitToClose cl rest with
        | some p =>
          obtain ⟨inner, after⟩ := p
          have hsl := splitToClose_length cl rest inner after hsp
          simp only [if_true, spaces, List.length_append, List.length_replicate,
            List.length_cons, ih after]
          omega
        | none => simp [ih rest]
      · rw [if_neg hc]; simp [ih rest]

theorem subDelim_length (op cl : Char) (l : List Char) :
    (subDelim op cl true l).length = l.length :=
  subDelimAux_length op cl l.length l

theorem fixSpaces_length (rd : Bool) (l : List Char) :
    (fixSpaces rd l).length = l.length := by
  unfold fixSpaces
  rw [subMultiSpace_eq_id]
  exact List.length_map l _

theorem subOfDigitsAux_length : ∀ (fuel : Nat) (l : List Char),
    (subOfDigitsAux fuel l).length = l.length := by
  intro fuel
  induction fuel with
  | zero => intro l; rfl
  | succ n ih =>
    intro l
    cases l with
    | nil => rfl
    | cons c rest =>
      simp only [subOfDigitsAux]
      split
      · next rest2 =>
        by_cases hds : (rest2.takeWhile Char.isDigit).isEmpty = true
        · rw [if_pos hds]
          simp [ih]
        · rw [if_neg hds]
          have hsplit := congrArg List.length
            (List.takeWhile_append_dropWhile Char.isDigit rest2)
          simp only [List.length_append] at hsplit
          simp only [spaces, List.length_append, List.length_replicate,
            List.length_cons, ih (rest2.dropWhile Char.isDigit)]
          omega
      · simp [ih]

theorem subOfDigits_length (l : List Char) : (subOfDigits l).length = l.length :=
  subOfDigitsAux_length l.length l

theorem cleanIssue_length (l : List Char) : (cleanIssue l).length = l.length := by
  simp only [cleanIssue]
  rw [subOfDigits_length, fixSpaces_length, subDelim_length, subDelim_length,
    plusToSpace_length]
  split
  · exact subPairRest_length '-' '-' l
  · split
    · exact subPairRest_length '_' '_' l
    · rfl

theorem findRev_eq_find?_reverse (p : α → Bool) : ∀ l : List α,
    findRev p l = l.reverse.find? p := by
  intro l
  induction l with
  | nil => rfl
  | cons x rest ih =>
    simp only [findRev, List.reverse_cons, List.find?_append, ih]
    cases h : List.find? p rest.reverse with
    | some r => simp [Option.or]
    | none =>
      cases hp : p x with
      | true => simp [Option.or, List.find?_cons, hp]
      | false => simp [Option.or, List.find?_cons, hp]

theorem tokenizeIdx_mem : ∀ (l : List Char) (i : Nat) (w : List Char × Nat × Nat),
    w ∈ tokenizeIdx l i →
    i ≤ w.2.1 ∧ w.2.2 = w.2.1 + w.1.length ∧ w.1 ≠ [] ∧ w.2.2 ≤ i + l.length := by
  intro l
  induction l with
  | nil => intro i w h; simp [tokenizeIdx] at h
  | cons c rest ih =>
    intro i w h
    simp only [tokenizeIdx] at h
    by_cases hc : pyIsSpace c = true
    · rw [if_pos hc] at h
      obtain ⟨h1, h2, h3, h4⟩ := ih (i + 1) w h
      exact ⟨by omega, h2, h3, by simp only [List.length_cons]; omega⟩
    · rw [if_neg hc] at h
      cases htok : tokenizeIdx rest (i + 1) with
      | nil =>
        rw [htok] at h
        simp only [List.mem_singleton] at h
        subst h
        exact ⟨Nat.le_refl i, by simp, by simp, by simp only [List.length_cons]; omega⟩
      | cons t0 ts =>
        obtain ⟨w0, s0, e0⟩ := t0
        rw [htok] at h
        replace h : w ∈ (if s0 = i + 1 then (c :: w0, i, e0) :: ts
            else ([c], i, i + 1) :: (w0, s0, e0) :: ts) := h
        have hhead : (w0, s0, e0) ∈ tokenizeIdx rest (i + 1) := by
          rw [htok]; exact List.mem_cons_self _ _
        obtain ⟨g1, g2, g3, g4⟩ := ih (i + 1) (w0, s0, e0) hhead
        by_cases hs : s0 = i + 1
        · rw [if_pos hs] at h
          rcases List.mem_cons.mp h with heq | hmem
          · subst heq
            refine ⟨Nat.le_refl i, ?_, by simp, ?_⟩
            · simp only at g2 ⊢
              simp only [List.length_cons]
              omega
            · simp only at g4 ⊢
              simp only [List.length_cons]
              omega
          · have hw : w ∈ tokenizeIdx rest (i + 1) := by
              rw [htok]; exact List.mem_cons_of_mem _ hmem
            obtain ⟨k1, k2, k3, k4⟩ := ih (i + 1) w hw
            exact ⟨by omega, k2, k3, by simp only [List.length_cons]; omega⟩
        · rw [if_neg hs] at h
          rcases List.mem_cons.mp h with heq | hmem
          · subst heq
            exact ⟨Nat.le_refl i, by simp, by simp, by simp only [List.length_cons]; omega⟩
          · have hw : w ∈ tokenizeIdx rest (i + 1) := by
              rw [htok]; exact hmem
            obtain ⟨k1, k2, k3, k4⟩ := ih (i + 1) w hw
            exact ⟨by omega, k2, k3, by simp only [List.length_cons]; omega⟩

theorem tokenizeIdx_sep : ∀ (l : List Char) (i : Nat) (t0 : List Char × Nat × Nat)
    (ts : List (List Char × Nat × Nat)),
    tokenizeIdx l i = t0 :: ts → ∀ u ∈ ts, t0.2.2 ≤ u.2.1 := by
  intro l
  induction l with
  | nil => intro i t0 ts h; simp [tokenizeIdx] at h
  | cons c rest ih =>
    intro i t0 ts h u hu
    simp only [tokenizeIdx] at h
    by_cases hc : pyIsSpace c = true
    · rw [if_pos hc] at h
      exact ih (i + 1) t0 ts h u hu
    · rw [if_neg hc] at h
      cases htok : tokenizeIdx rest (i + 1) with
      | nil =>
        rw [htok] at h
        simp only [List.cons.injEq] at h
        obtain ⟨_, hts⟩ := h
        rw [← hts] at hu
        exact absurd hu (by simp)
      | cons p ps =>
        obtain ⟨w0, s0, e0⟩ := p
        rw [htok] at h
        replace h : (if s0 = i + 1 then (c :: w0, i, e0) :: ps
            else ([c], i, i + 1) :: (w0, s0, e0) :: ps) = t0 :: ts := h
        by_cases hs : s0 = i + 1
        · rw [if_pos hs] at h
          simp only [List.cons.injEq] at h
          obtain ⟨ht0, hts⟩ := h
          rw [← ht0]
          rw [← hts] at hu
          have := ih (i + 1) (w0, s0, e0) ps htok u hu
          simpa using this
        · rw [if_neg hs] at h
          simp only [List.cons.injEq] at h
          obtain ⟨ht0, hts⟩ := h
          rw [← ht0]
          rw [← hts] at hu
          rcases List.mem_cons.mp hu with heq | hmem
          · subst heq
            have hmm := tokenizeIdx_mem rest (i + 1) (w0, s0, e0)
              (by rw [htok]; exact List.mem_cons_self _ _)
            obtain ⟨k1, k2, k3, k4⟩ := hmm
            simp only at k1 ⊢
            omega
          · have hw : u ∈ tokenizeIdx rest (i + 1) := by
              rw [htok]; exact List.mem_cons_of_mem _ hmem
            obtain ⟨k1, k2, k3, k4⟩ := tokenizeIdx_mem rest (i + 1) u hw
            simp only at k1 ⊢
            omega

theorem findRev_mem (p : α → Bool) : ∀ (l : List α) (x : α),
    findRev p l = some x → x ∈ l ∧ p x = true := by
  intro l
  induction l with
  | nil => intro x h; simp [findRev] at h
  | cons a rest ih =>
    intro x h
    simp only [findRev] at h
    cases hr : findRev p rest with
    | some r =>
      rw [hr] at h
      simp only [Option.some.injEq] at h
      rw [← h]
      obtain ⟨hm, hp⟩ := ih r hr
      exact ⟨List.mem_cons_of_mem _ hm, hp⟩
    | none =>
      rw [hr] at h
      by_cases hp : p a = true
      · rw [if_pos hp] at h
        simp only [Option.some.injEq] at h
        rw [← h]
        exact ⟨List.mem_cons_self _ _, hp⟩
      · rw [if_neg hp] at h
        exact absurd h (by simp)

theorem numTest_ne_nil (r : List Char) (h : numTest r = true) : r ≠ [] := by
  cases r with
  | nil => exact absurd h (by decide)
  | cons c rest => simp

/-- A token accepted by any of the three candidate tests still has a
non-empty issue string after the leading `#` is stripped. -/
theorem stripHash_ne_nil (w : List Char)
    (h : tier1Test w = true ∨ tier2Test w = true ∨ tier3Test w = true) :
    stripHash w ≠ [] := by
  cases w with
  | nil =>
    rcases h with h | h | h <;> exact absurd h (by decide)
  | cons c rest =>
    simp only [stripHash]
    by_cases hc : (c == '#') = true
    · rw [if_pos hc]
      have hceq : c = '#' := by simpa using hc
      subst hceq
      rcases h with h | h | h
      · simp only [tier1Test, Bool.and_eq_true] at h
        exact numTest_ne_nil rest h.2
      · exfalso
        have : numTest ('#' :: rest) = false := rfl
        simp only [tier2Test] at h
        rw [this] at h
        exact absurd h (by simp)
      · cases rest with
        | nil => exact absurd h (by decide)
        | cons d rest2 => simp
    · rw [if_neg hc]
      simp

/-- The issue-number pass either finds nothing (and returns an empty issue
with zero offsets), or returns a token taken from the tokens after the
first one, with a leading `#` stripped, and that issue string is
non-empty. -/
theorem getIssueNumber_found : ∀ f : List Char,
    getIssueNumber f = ([], 0, 0) ∨
    ∃ t0 ts w, tokenizeIdx (cleanIssue f) 0 = t0 :: ts ∧ w ∈ ts ∧
      getIssueNumber f = (stripHash w.1, w.2.1, w.2.2) ∧ stripHash w.1 ≠ [] := by
  intro f
  cases hwl : tokenizeIdx (cleanIssue f) 0 with
  | nil =>
    left
    simp only [getIssueNumber, hwl]
    rfl
  | cons t0 ts =>
    by_cases hlen : (t0 :: ts).length > 1
    · have hdrop : (t0 :: ts).drop 1 = ts := rfl
      cases h1 : findRev (fun w => tier1Test w.1) ts with
      | some w =>
        obtain ⟨hmem, hp⟩ := findRev_mem _ ts w h1
        right
        refine ⟨t0, ts, w, rfl, hmem, ?_, stripHash_ne_nil w.1 (Or.inl hp)⟩
        simp only [getIssueNumber, hwl]
        rw [if_pos hlen, hdrop, h1]
        rfl
      | none =>
        cases h2 : ts.getLast? with
        | some wlast =>
          by_cases ht2 : tier2Test wlast.1 = true
          · right
            refine ⟨t0, ts, wlast, rfl, List.mem_of_mem_getLast? h2, ?_,
              stripHash_ne_nil wlast.1 (Or.inr (Or.inl ht2))⟩
            simp only [getIssueNumber, hwl]
            rw [if_pos hlen, hdrop]
            simp only [h1, h2]
            rw [if_pos ht2]
            rfl
          · cases h3 : findRev (fun w => tier3Test w.1) ts with
            | some w =>
              obtain ⟨hmem, hp⟩ := findRev_mem _ ts w h3
              right
              refine ⟨t0, ts, w, rfl, hmem, ?_,
                stripHash_ne_nil w.1 (Or.inr (Or.inr hp))⟩
              simp only [getIssueNumber, hwl]
              rw [if_pos hlen, hdrop]
              simp only [h1, h2]
              rw [if_neg ht2]
              simp only [h3]
              rfl
            | none =>
              left
              simp only [getIssueNumber, hwl]
              rw [if_pos hlen, hdrop]
              simp only [h1, h2]
              rw [if_neg ht2]
              simp only [h3]
        | none =>
          left
          simp only [getIssueNumber, hwl]
          rw [if_pos hlen, hdrop]
          simp only [h1, h2]
    · left
      simp only [getIssueNumber, hwl]
      rw [if_neg hlen]

/-- Claim C5: every cleaning substitution of `getIssueNumber` preserves the
string's length (double-dash and double-underscore blanking, `+`
replacement, parenthetical and bracket blanking, separator normalization,
`of <digits>` blanking, and their composition `cleanIssue`); consequently
the returned offsets satisfy `start ≤ end ≤ length` and index into the
original filename; the issue string is empty exactly when both offsets are
zero, and a non-empty issue has `0 < start < end`. -/
theorem getIssueNumber_offsets : ∀ f : List Char,
    ((subPairRest '-' '-' f).length = f.length ∧
     (subPairRest '_' '_' f).length = f.length ∧
     (plusToSpace f).length = f.length ∧
     (subDelim '(' ')' true f).length = f.length ∧
     (subDelim '[' ']' true f).length = f.length ∧
     (fixSpaces true f).length = f.length ∧
     (subOfDigits f).length = f.length ∧
     (cleanIssue f).length = f.length) ∧
    ((getIssueNumber f).2.1 ≤ (getIssueNumber f).2.2 ∧
     (getIssueNumber f).2.2 ≤ f.length ∧
     ((getIssueNumber f).1 = [] ↔ (getIssueNumber f).2.1 = 0 ∧ (getIssueNumber f).2.2 = 0) ∧
     ((getIssueNumber f).1 ≠ [] →
        0 < (getIssueNumber f).2.1 ∧ (getIssueNumber f).2.1 < (getIssueNumber f).2.2)) := by
  intro f
  refine ⟨⟨subPairRest_length '-' '-' f, subPairRest_length '_' '_' f, plusToSpace_length f,
    subDelim_length '(' ')' f, subDelim_length '[' ']' f, fixSpaces_length true f,
    subOfDigits_length f, cleanIssue_length f⟩, ?_⟩
  rcases getIssueNumber_found f with hz | ⟨t0, ts, w, htok, hmem, heq, hne⟩
  · rw [hz]
    exact ⟨Nat.le_refl 0, Nat.zero_le _, by simp, by simp⟩
  · rw [heq]
    have hwmem : w ∈ tokenizeIdx (cleanIssue f) 0 := by
      rw [htok]; exact List.mem_cons_of_mem _ hmem
    obtain ⟨m1, m2, m3, m4⟩ := tokenizeIdx_mem (cleanIssue f) 0 w hwmem
    obtain ⟨n1, n2, n3, n4⟩ := tokenizeIdx_mem (cleanIssue f) 0 t0
      (by rw [htok]; exact List.mem_cons_self _ _)
    have hsep := tokenizeIdx_sep (cleanIssue f) 0 t0 ts htok w hmem
    have hcl := cleanIssue_length f
    have hlen1 : 1 ≤ t0.1.length := by
      cases hx : t0.1 with
      | nil => exact absurd hx n3
      | cons a l => simp only [List.length_cons]; omega
    have hwlen1 : 1 ≤ w.1.length := by
      cases hx : w.1 with
      | nil => exact absurd hx m3
      | cons a l => simp only [List.length_cons]; omega
    refine ⟨?_, ?_, ⟨fun hc => absurd hc hne, ?_⟩, fun _ => ⟨?_, ?_⟩⟩
    · dsimp only
      omega
    · dsimp only
      omega
    · dsimp only
      intro hab
      exfalso
      omega
    · dsimp only
      omega
    · dsimp only
      omega

/-- Witness for C5's theorem at `A #3`: the found issue has positive start
offset and start strictly below end. -/
theorem getIssueNumber_offsets_witness :
    0 < (getIssueNumber (String.toList "A #3")).2.1 ∧
      (getIssueNumber (String.toList "A #3")).2.1 <
        (getIssueNumber (String.toList "A #3")).2.2 :=
  (getIssueNumber_offsets (String.toList "A #3")).2.2.2.2 (by decide)

/-- Claim C4: `getIssueNumber` is exactly the claim's candidate selection:
tokenize the cleaned filename, abort with an empty issue and zero offsets
when at most one token exists, drop the first token from candidacy, then
try tier 1 (rightmost `#`-numeric token), tier 2 (last token, numeric, no
`#`), tier 3 (rightmost `#`-anything token) in order, stripping a leading
`#`; and `parse("OnlyOneWord.cbz")` gives series `OnlyOneWord` and an
empty issue. -/
theorem getIssueNumber_eq_claimed :
    (∀ f : List Char, getIssueNumber f = issueNumberClaimed f) ∧
    (parseFilename (String.toList "OnlyOneWord.cbz")).map (fun r => (r.series, r.issue)) =
      some (String.toList "OnlyOneWord", []) := by
  refine ⟨?_, by decide⟩
  intro f
  simp only [getIssueNumber, issueNumberClaimed]
  generalize tokenizeIdx (cleanIssue f) 0 = wl
  by_cases hlen : wl.length > 1
  · rw [if_pos hlen, if_neg (by omega)]
    rw [findRev_eq_find?_reverse, findRev_eq_find?_reverse]
    cases h1 : (wl.drop 1).reverse.find? (fun w => tier1Test w.1) with
    | some w => rfl
    | none =>
      cases h2 : (wl.drop 1).getLast? with
      | some wlast =>
        by_cases ht2 : tier2Test wlast.1 = true
        · simp only [ht2, if_true]
          rfl
        · simp only [ht2, Bool.false_eq_true, if_false]
          cases h3 : (wl.drop 1).reverse.find? (fun w => tier3Test w.1) with
          | some w => rfl
          | none => rfl
      | none =>
        have hnil : wl.drop 1 = [] := List.getLast?_eq_none_iff.mp h2
        rw [hnil]
        rfl
  · rw [if_neg hlen, if_pos (by omega)]

/-- Claim C6: whenever a non-empty issue number is recovered, the final
issue is the claim's normalization (leading zeros stripped; all-zero
becomes `0`; a leading decimal point gets `0` prepended); the issue field
of every successful parse is this normalization of the raw Pass-2 issue;
and concretely `007` becomes `7`, `000` becomes `0` and `.5` becomes
`0.5`. -/
theorem issue_finalization :
    (∀ s : List Char, s ≠ [] → pyFinalize s = finalizeClaimed s) ∧
    (∀ (f : List Char) (r : ParseResult), parseFilename f = some r →
        r.issue = pyFinalize (getIssueNumber (preprocess f)).1) ∧
    pyFinalize (String.toList "007") = String.toList "7" ∧
    pyFinalize (String.toList "000") = String.toList "0" ∧
    pyFinalize (String.toList ".5") = String.toList "0.5" := by
  refine ⟨?_, ?_, by decide, by decide, by decide⟩
  · intro s hs
    have hne : s.isEmpty = false := by
      cases s with
      | nil => exact absurd rfl hs
      | cons c r => rfl
    simp only [pyFinalize, finalizeClaimed, hne, Bool.false_eq_true, if_false]
    generalize s.dropWhile (fun c => c == '0') = t
    cases t with
    | nil => rfl
    | cons c r =>
      simp only [List.isEmpty_cons, Bool.false_eq_true, if_false]
  · intro f r h
    revert h
    unfold parseFilename
    cases getSeriesName (preprocess f) (getIssueNumber (preprocess f)).2.1 with
    | none => intro h; exact absurd h (by simp)
    | some sv =>
      cases sv with
      | mk series volume =>
        intro h
        rw [← Option.some.inj h]

/-- Witness for C6's theorem: the normalization equality at `012`, and the
parse-level conjunct at `X 007.cbz`. -/
theorem issue_finalization_witness :
    pyFinalize (String.toList "012") = finalizeClaimed (String.toList "012") ∧
    (parseFilename (String.toList "X 007.cbz")).map (fun r => r.issue) =
      some (pyFinalize (getIssueNumber (preprocess (String.toList "X 007.cbz"))).1) := by
  refine ⟨issue_finalization.1 (String.toList "012") (by decide), ?_⟩
  cases hp : parseFilename (String.toList "X 007.cbz") with
  | none => exact absurd hp (by decide)
  | some r =>
    simp only [Option.map_some']
    rw [issue_finalization.2.1 (String.toList "X 007.cbz") r hp]

/-- Claim C7: `parse("Saga v2 #5.cbr")` yields series `Saga`, volume `2`
and issue `5`: the trailing `v2` volume marker before the issue span makes
`Saga` the series and `2` the volume. -/
theorem parseFilename_saga_example :
    (parseFilename (String.toList "Saga v2 #5.cbr")).map
        (fun r => (r.series, r.volume, r.issue)) =
      some (String.toList "Saga", String.toList "2", String.toList "5") := by
  decide

/-- Claim C8: `parse("Batman (1940) #1 of 12 (1940).cbz")` yields issue `1`
and issue count `12`; `getIssueCount` finds the count case-insensitively in
either the `of <n> ` or the `(of <n>)` form and strips its leading zeros. -/
theorem parseFilename_batman_example :
    (parseFilename (String.toList "Batman (1940) #1 of 12 (1940).cbz")).map
        (fun r => (r.issue, r.issue_count)) =
      some (String.toList "1", String.toList "12") ∧
    getIssueCount (String.toList "B #1 oF 007 x") 0 = String.toList "7" ∧
    getIssueCount (String.toList "B #1 (OF 04)") 0 = String.toList "4" := by
  refine ⟨by decide, by decide, by decide⟩

end Darkseid
